import Mathlib

/-!
Shallow embedding of `src/lib/models/change.js` (the LoopBack `Change` model:
change tracking and diff/conflict detection).

Modelling conventions:
* A JS string-valued property that may be `null`/`undefined` is `Option String`
  (`none` covers both `null` and `undefined`; the spec's data model treats
  "null/absent" as one state).
* `checkpoint` is a JS Number property that may be absent: `Option Int`.
  The loopback `gt` filter does not match an absent value.
* The configurable hash (`Change.settings.hashAlgorithm`, default sha1) and the
  canonical-JSON serializer are injected as function parameters `hash`, `cjson`.
* Node-style callback code `cb(err, value)` becomes `Except ε value`; the
  external keyed store and entity accessor become injected functions returning
  `Except`.
* `async.parallel(tasks, callback)` is modelled by `parallelCollect`: the
  callback receives an error as soon as any task errors, otherwise the list of
  all results; in the sequential embedding "first failure" is first in list
  order.
-/

set_option autoImplicit false

/-- A `Change` record, mirroring the `properties` block of `change.js`
(lines 16-23).  The `id` property is a computed getter
(`Change.idForModel(this.modelName, this.modelId)`, lines 65-71), not stored
state, so it is the derived function `Change.idOf` below rather than a field. -/
structure Change where
  rev : Option String
  prev : Option String
  checkpoint : Option Int
  modelName : String
  modelId : String
  deriving DecidableEq, Repr

namespace Change

/-- `Change.UPDATE = 'update'` (line 53). -/
def UPDATE : String := "update"

/-- `Change.CREATE = 'create'` (line 54). -/
def CREATE : String := "create"

/-- `Change.DELETE = 'delete'` (line 55). -/
def DELETE : String := "delete"

/-- `Change.UNKNOWN = 'unknown'` (line 56). -/
def UNKNOWN : String := "unknown"

/-- JS truthiness of a possibly-absent string property: `null`, `undefined`
and the empty string `""` are falsy, every other string is truthy. -/
def truthy : Option String → Bool
  | none => false
  | some s => !s.isEmpty

/-- `Change.idForModel(modelName, modelId)` (lines 108-110):
`this.hash([modelName, modelId].join('-'))`.  `hash` is the injected digest
function (`Change.hash`, lines 188-193). -/
def idForModel (hash : String → String) (modelName modelId : String) : String :=
  hash (String.intercalate "-" [modelName, modelId])

/-- The computed `id` getter (lines 65-71) on a record whose `modelName` and
`modelId` are both set. -/
def idOf (hash : String → String) (ch : Change) : String :=
  idForModel hash ch.modelName ch.modelId

/-- `Change.revisionForInst(inst)` (lines 201-203):
`this.hash(CJSON.stringify(inst))`.  The entity instance is modelled by an
opaque serializable value, here a `String`, and `cjson` is the injected
canonical-JSON serializer. -/
def revisionForInst (hash cjson : String → String) (inst : String) : String :=
  hash (cjson inst)

/-- `Change.prototype.type()` (lines 216-227).  The JS code branches on the
truthiness of `this.rev` and `this.prev` (`if(this.rev && this.prev) ...`). -/
def type (ch : Change) : String :=
  if truthy ch.rev && truthy ch.prev then UPDATE
  else if truthy ch.rev && !truthy ch.prev then CREATE
  else if !truthy ch.rev && truthy ch.prev then DELETE
  else UNKNOWN

/-- `Change.prototype.equals(change)` (lines 245-247):
`change.rev === this.rev`.  `self` plays the role of `this`. -/
def equals (self ch : Change) : Bool :=
  ch.rev == self.rev

/-- `Change.prototype.isBasedOn(change)` (lines 255-257):
`this.prev === change.rev`.  `self` plays the role of `this`. -/
def isBasedOn (self ch : Change) : Bool :=
  self.prev == ch.rev

/-- The loopback where-clause `checkpoint: {gt: since}` (line 303) on a
possibly-absent `checkpoint` value: an absent checkpoint never matches. -/
def checkpointGt (cp : Option Int) (since : Int) : Bool :=
  match cp with
  | none => false
  | some c => since < c

/-- JS object property assignment `remoteChangeIndex[ch.modelId] = ch`
(line 294) on an index modelled as an association list: overwrite the value at
an existing key in place, otherwise append the new binding. -/
def insertIdx (idx : List (String × Change)) (k : String) (v : Change) :
    List (String × Change) :=
  if idx.any (fun p => p.1 == k) then
    idx.map (fun p => if p.1 == k then (k, v) else p)
  else
    idx ++ [(k, v)]

/-- JS object property read `remoteChangeIndex[localChange.modelId]`
(line 310): the value bound to the key, if any. -/
def lookupIdx (idx : List (String × Change)) (k : String) : Option Change :=
  (idx.find? (fun p => p.1 == k)).map (fun p => p.2)

/-- The `remoteChanges.forEach` loop of `Change.diff` (lines 290-295): collect
every `ch.modelId` into `modelIds` (in order, duplicates kept) and build
`remoteChangeIndex` by object assignment (later entries with the same
`modelId` overwrite earlier ones).  `new Change(ch)` is the identity on the
modelled fields. -/
def indexRemotes (remoteChanges : List Change) :
    List String × List (String × Change) :=
  remoteChanges.foldl
    (fun acc ch => (acc.1 ++ [ch.modelId], insertIdx acc.2 ch.modelId ch))
    ([], [])

/-- The local-store query of `Change.diff` (lines 299-304): `this.find` with
where-clause `modelName` equal, `modelId` in `modelIds`, `checkpoint`
greater-than `since`.  The keyed store is modelled as the list of all
persisted `Change` records; `find` returns the matching ones in store order. -/
def localQuery (modelName : String) (since : Int) (modelIds : List String)
    (store : List Change) : List Change :=
  store.filter (fun c =>
    c.modelName == modelName && modelIds.contains c.modelId &&
      checkpointGt c.checkpoint since)

/-- The `localChanges.forEach` classification loop of `Change.diff`
(lines 309-318): for each local change, look up its remote counterpart; if
`localChange.equals(remoteChange)` fails, push the remote onto `deltas` when
`remoteChange.isBasedOn(localChange)`, else push the local onto `conflicts`.
Results are returned in push order. -/
def diffLoop (locals : List Change) (idx : String → Option Change) :
    List Change × List Change :=
  match locals with
  | [] => ([], [])
  | l :: ls =>
    let rest := diffLoop ls idx
    match idx l.modelId with
    | none => rest
    | some r =>
      if l.equals r then rest
      else if r.isBasedOn l then (r :: rest.1, rest.2)
      else (rest.1, l :: rest.2)

/-- `Change.diff(modelName, since, remoteChanges, callback)` (lines 289-325):
index the remote changes, query the local store, classify each matching local
change, and return `(deltas, conflicts)`.  `since` is taken as an integer
(the `Number(since) || 0` normalization on line 298 is the identity there);
the only error path is a store error from `find`, which the list-modelled
store does not produce, so the result is the pair itself. -/
def diff (modelName : String) (since : Int) (remoteChanges : List Change)
    (store : List Change) : List Change × List Change :=
  let idxPair := indexRemotes remoteChanges
  diffLoop (localQuery modelName since idxPair.1 store) (lookupIdx idxPair.2)

/-- `Change.prototype.currentRevision(cb)` (lines 168-178): look up the
entity's current state via the entity accessor for `modelName`
(`getModelCtor().findById(modelId)`, modelled by the injected `findEntity`);
a store error propagates via `Change.handleError`; a found instance yields
`Change.revisionForInst(inst)`; a missing instance yields `cb(null, null)` -
a successful `none`, not an error. -/
def currentRevision {ε : Type} (hash cjson : String → String)
    (findEntity : String → String → Except ε (Option String)) (ch : Change) :
    Except ε (Option String) :=
  match findEntity ch.modelName ch.modelId with
  | .error e => .error e
  | .ok (some inst) => .ok (some (revisionForInst hash cjson inst))
  | .ok none => .ok none

/-- `Change.prototype.rectify(cb)` (lines 150-159): first `this.prev =
this.rev`, then compute the current revision; on success set `change.rev`
to it (possibly `null`) and `change.save(cb)`; on error propagate.  The
store's `save` is injected. -/
def rectify {ε : Type} (hash cjson : String → String)
    (findEntity : String → String → Except ε (Option String))
    (save : Change → Except ε Change) (ch : Change) : Except ε Change :=
  let shifted : Change := { ch with prev := ch.rev }
  match currentRevision hash cjson findEntity shifted with
  | .error e => .error e
  | .ok rev => save { shifted with rev := rev }

/-- `Change.findOrCreate(modelName, modelId, callback)` (lines 123-140): look
up the record by its derived id via the keyed store's `findById`; if found
return it; otherwise create `new Change({id, modelName, modelId})` (all other
properties absent) and `save` it. -/
def findOrCreate {ε : Type} (hash : String → String)
    (findById : String → Except ε (Option Change))
    (save : Change → Except ε Change) (modelName modelId : String) :
    Except ε Change :=
  match findById (idForModel hash modelName modelId) with
  | .error e => .error e
  | .ok (some ch) => .ok ch
  | .ok none =>
    save { rev := none, prev := none, checkpoint := none,
           modelName := modelName, modelId := modelId }

/-- One task of `Change.track` (lines 90-95): `findOrCreate` the change for
one id, propagating errors via `Change.handleError`, then `rectify` it. -/
def trackTask {ε : Type} (hash cjson : String → String)
    (findById : String → Except ε (Option Change))
    (save : Change → Except ε Change)
    (findEntity : String → String → Except ε (Option String))
    (modelName modelId : String) : Except ε Change :=
  match findOrCreate hash findById save modelName modelId with
  | .error e => .error e
  | .ok ch => rectify hash cjson findEntity save ch

/-- `async.parallel(tasks, callback)` (line 97): the callback receives the
list of all task results when every task succeeds, and a failing task's error
otherwise (never a partial result list).  In this sequential embedding the
reported error is the first failing task's, in list order. -/
def parallelCollect {ε α : Type} : List (Except ε α) → Except ε (List α)
  | [] => .ok []
  | .error e :: _ => .error e
  | .ok a :: rest =>
    match parallelCollect rest with
    | .error e => .error e
    | .ok as => .ok (a :: as)

/-- `Change.track(modelName, modelIds, callback)` (lines 85-98): build one
find-or-create-then-rectify task per id and run them under `async.parallel`. -/
def track {ε : Type} (hash cjson : String → String)
    (findById : String → Except ε (Option Change))
    (save : Change → Except ε Change)
    (findEntity : String → String → Except ε (Option String))
    (modelName : String) (modelIds : List String) : Except ε (List Change) :=
  parallelCollect
    (modelIds.map (trackTask hash cjson findById save findEntity modelName))

/-- Whether a node-style call succeeded: `true` on `.ok`, `false` on
`.error`. -/
def succeeded {ε α : Type} : Except ε α → Bool
  | .ok _ => true
  | .error _ => false

/-- The spec's per-record delta disposition (§4.5 step 3): a matched local
record `l` contributes its remote counterpart to `deltas` exactly when the
revs differ and `remote.prev = local.rev`; it contributes nothing when the
revs agree or no counterpart is indexed. -/
def deltaDisposition (idx : String → Option Change) (l : Change) :
    Option Change :=
  match idx l.modelId with
  | none => none
  | some r => if r.rev = l.rev then none else if r.prev = l.rev then some r else none

/-- The spec's per-record conflict disposition (§4.5 step 3): a matched local
record is a conflict exactly when the revs differ and `remote.prev` is not
`local.rev`. -/
def conflictDisposition (idx : String → Option Change) (l : Change) : Bool :=
  match idx l.modelId with
  | none => false
  | some r => decide (¬r.rev = l.rev ∧ ¬r.prev = l.rev)

end Change

namespace Change

theorem diffLoop_eq (locals : List Change) (idx : String → Option Change) :
    diffLoop locals idx =
      (locals.filterMap (deltaDisposition idx),
       locals.filter (conflictDisposition idx)) := by
  induction locals with
  | nil => rfl
  | cons l ls ih =>
    cases h : idx l.modelId with
    | none =>
      simp [diffLoop, ih, deltaDisposition, conflictDisposition, h]
    | some r =>
      by_cases h1 : r.rev = l.rev
      · simp [diffLoop, ih, deltaDisposition, conflictDisposition, h,
          Change.equals, h1]
      · by_cases h2 : r.prev = l.rev
        · simp [diffLoop, ih, deltaDisposition, conflictDisposition, h,
            Change.equals, Change.isBasedOn, h1, h2]
        · simp [diffLoop, ih, deltaDisposition, conflictDisposition, h,
            Change.equals, Change.isBasedOn, h1, h2]

theorem lookupIdx_map_replace_self (idx : List (String × Change))
    (k : String) (v : Change) (hany : idx.any (fun p => p.1 == k) = true) :
    lookupIdx (idx.map (fun p => if p.1 == k then (k, v) else p)) k
      = some v := by
  induction idx with
  | nil => simp at hany
  | cons p ps ih =>
    by_cases hp : (p.1 == k) = true
    · simp [lookupIdx, List.find?, hp]
    · have hps : ps.any (fun p => p.1 == k) = true := by
        simpa [List.any_cons, hp] using hany
      have hrec := ih hps
      simp only [lookupIdx] at hrec ⊢
      simpa [List.find?, hp] using hrec

theorem lookupIdx_map_replace_ne (idx : List (String × Change))
    (k k' : String) (v : Change) (hne : k' ≠ k) :
    lookupIdx (idx.map (fun p => if p.1 == k then (k, v) else p)) k'
      = lookupIdx idx k' := by
  induction idx with
  | nil => rfl
  | cons p ps ih =>
    by_cases hp : (p.1 == k) = true
    · have hp' : p.1 = k := by simpa using hp
      have hkk : (k == k') = false := by
        simp only [beq_eq_false_iff_ne]
        exact fun h => hne h.symm
      have hpk : (p.1 == k') = false := by
        rw [hp']
        exact hkk
      simp only [lookupIdx] at ih ⊢
      simpa [List.find?, hp, hkk, hpk] using ih
    · simp only [lookupIdx] at ih ⊢
      cases hpk : (p.1 == k') with
      | false => simpa [List.find?, hp, hpk] using ih
      | true => simp [List.find?, hp, hpk]

theorem lookupIdx_insert (idx : List (String × Change)) (k : String)
    (v : Change) (k' : String) :
    lookupIdx (insertIdx idx k v) k'
      = if k' = k then some v else lookupIdx idx k' := by
  by_cases hk : k' = k
  · subst hk
    simp only [if_true]
    unfold insertIdx
    by_cases hany : idx.any (fun p => p.1 == k') = true
    · simp only [hany, if_true]
      exact lookupIdx_map_replace_self idx k' v hany
    · simp only [hany, if_false]
      have hnone : idx.find? (fun p => p.1 == k') = none := by
        rw [List.find?_eq_none]
        intro p hp
        simp only [List.any_eq_true] at hany
        exact fun hpk => hany ⟨p, hp, hpk⟩
      simp [lookupIdx, List.find?_append, hnone, List.find?]
  · simp only [hk, if_false]
    unfold insertIdx
    by_cases hany : idx.any (fun p => p.1 == k) = true
    · simp only [hany, if_true]
      exact lookupIdx_map_replace_ne idx k k' v hk
    · simp only [hany, if_false]
      have hkk : (k == k') = false := by
        simp only [beq_eq_false_iff_ne]
        exact fun h => hk h.symm
      simp [lookupIdx, List.find?_append, List.find?, hkk, Option.or_none]

theorem lookupIdx_foldl_insert (rs : List Change)
    (idx : List (String × Change)) (mid : String) :
    lookupIdx (rs.foldl (fun i ch => insertIdx i ch.modelId ch) idx) mid
      = (rs.reverse.find? (fun c => c.modelId == mid)).or (lookupIdx idx mid) := by
  induction rs generalizing idx with
  | nil => simp
  | cons ch rs ih =>
    simp only [List.foldl_cons, ih, List.reverse_cons, List.find?_append,
      Option.or_assoc]
    congr 1
    rw [lookupIdx_insert]
    by_cases h : mid = ch.modelId
    · simp [List.find?, h]
    · have hmm : (ch.modelId == mid) = false := by
        simp only [beq_eq_false_iff_ne]
        exact fun hc => h hc.symm
      simp [List.find?, hmm, h]

theorem indexRemotes_foldl (rs : List Change)
    (acc : List String × List (String × Change)) :
    rs.foldl (fun a ch => (a.1 ++ [ch.modelId], insertIdx a.2 ch.modelId ch))
        acc
      = (acc.1 ++ rs.map (fun c => c.modelId),
         rs.foldl (fun i ch => insertIdx i ch.modelId ch) acc.2) := by
  induction rs generalizing acc with
  | nil => simp
  | cons ch rs ih => simp [List.foldl_cons, ih]

theorem indexRemotes_fst (rs : List Change) :
    (indexRemotes rs).1 = rs.map (fun c => c.modelId) := by
  unfold indexRemotes
  rw [indexRemotes_foldl]
  simp

theorem indexRemotes_lookup (rs : List Change) (mid : String) :
    lookupIdx (indexRemotes rs).2 mid
      = rs.reverse.find? (fun c => c.modelId == mid) := by
  unfold indexRemotes
  rw [indexRemotes_foldl]
  have h := lookupIdx_foldl_insert rs [] mid
  simp only [h]
  simp [lookupIdx, Option.or_none]

theorem parallelCollect_succeeded {ε α : Type} (ts : List (Except ε α)) :
    succeeded (parallelCollect ts) = ts.all succeeded := by
  induction ts with
  | nil => rfl
  | cons t ts ih =>
    cases t with
    | error e => simp [parallelCollect, succeeded]
    | ok a =>
      cases hrec : parallelCollect ts with
      | error e =>
        rw [hrec] at ih
        simp [parallelCollect, hrec, succeeded, List.all_cons, ← ih]
      | ok as =>
        rw [hrec] at ih
        simp [parallelCollect, hrec, succeeded, List.all_cons, ← ih]

theorem parallelCollect_error_mem {ε α : Type} (ts : List (Except ε α))
    (e : ε) (h : parallelCollect ts = .error e) : Except.error e ∈ ts := by
  induction ts with
  | nil => simp [parallelCollect] at h
  | cons t ts ih =>
    cases t with
    | error e' =>
      simp only [parallelCollect] at h
      cases h
      exact List.mem_cons_self _ _
    | ok a =>
      simp only [parallelCollect] at h
      cases hrec : parallelCollect ts with
      | error e' =>
        rw [hrec] at h
        cases h
        exact List.mem_cons_of_mem _ (ih hrec)
      | ok as => rw [hrec] at h; cases h

theorem append_dashFree_inj (a : List Char) :
    ∀ (c b d : List Char), '-' ∉ a → '-' ∉ c →
      a ++ '-' :: b = c ++ '-' :: d → a = c ∧ b = d := by
  induction a with
  | nil =>
    intro c b d _ hc h
    cases c with
    | nil => simpa using h
    | cons x xs =>
      simp only [List.nil_append, List.cons_append, List.cons_eq_cons] at h
      exact absurd (show ('-' : Char) ∈ x :: xs by
        rw [h.1]; exact List.mem_cons_self x xs) hc
  | cons x xs ih =>
    intro c b d ha hc h
    cases c with
    | nil =>
      simp only [List.cons_append, List.nil_append, List.cons_eq_cons] at h
      exact absurd (show ('-' : Char) ∈ x :: xs by
        rw [← h.1]; exact List.mem_cons_self x xs) ha
    | cons y ys =>
      simp only [List.cons_append, List.cons_eq_cons] at h
      obtain ⟨hxy, hrest⟩ := h
      have ha' : '-' ∉ xs := fun hm => ha (List.mem_cons_of_mem _ hm)
      have hc' : '-' ∉ ys := fun hm => hc (List.mem_cons_of_mem _ hm)
      obtain ⟨h1, h2⟩ := ih ys b d ha' hc' hrest
      exact ⟨by rw [hxy, h1], h2⟩

theorem idForModel_eq_append (hash : String → String) (m i : String) :
    idForModel hash m i = hash (m ++ "-" ++ i) := rfl

end Change

/-- Modelled on the spec's §4.4 table words only, for comparison against the
code's `Change.type`: classification keyed on the null/non-null status of
`rev` and `prev`. -/
def specClassifyType (ch : Change) : String :=
  match ch.rev, ch.prev with
  | some _, some _ => Change.UPDATE
  | some _, none => Change.CREATE
  | none, some _ => Change.DELETE
  | none, none => Change.UNKNOWN

/-- A concrete record with an empty-string `rev`: non-null for the spec's
table, falsy for the JS code. -/
def emptyRevChange : Change :=
  { rev := some "", prev := none, checkpoint := none, modelName := "m", modelId := "1" }

/-- A concrete record with a non-empty `rev` and absent `prev`. -/
def createdChange : Change :=
  { rev := some "a", prev := none, checkpoint := none, modelName := "m", modelId := "1" }

/-- C3: for every pair of change records, `IsBasedOn(remote, local)` — the
method call `remote.isBasedOn(local)` — returns true if and only if
`remote.prev` equals `local.rev`. -/
theorem spec_C3_isBasedOn (remote loc : Change) :
    remote.isBasedOn loc = true ↔ remote.prev = loc.rev := by
  unfold Change.isBasedOn
  exact beq_iff_eq

/-- C8: `Equals(a, b)` returns true if and only if `a.rev` equals `b.rev`,
and varying `prev` or `checkpoint` on either record while holding both revs
fixed never changes the result. -/
theorem spec_C8_equals (a b : Change) :
    (a.equals b = true ↔ a.rev = b.rev) ∧
    (∀ (p p' : Option String) (c c' : Option Int),
      Change.equals { a with prev := p, checkpoint := c }
          { b with prev := p', checkpoint := c' } = a.equals b) := by
  constructor
  · unfold Change.equals
    rw [beq_iff_eq]
    exact eq_comm
  · intro p p' c c'
    rfl

/-- C5 counterexample: the claim fails on the code.  The record with
`rev = some ""` (non-null) and `prev = none` must be CREATE by the §4.4
table, but `Change.prototype.type` branches on JS truthiness
(`if(this.rev && this.prev)`), the empty string is falsy, and the code
returns UNKNOWN. -/
theorem spec_C5_counterexample :
    Change.type emptyRevChange = Change.UNKNOWN ∧
    specClassifyType emptyRevChange = Change.CREATE ∧
    Change.UNKNOWN ≠ Change.CREATE := by
  refine ⟨rfl, rfl, ?_⟩
  decide

/-- C5 amended: for every change record whose `rev` and `prev` are each
either null or a non-empty string, `ClassifyType` matches the §4.4 table
exactly (the code reads string truthiness, so an empty-string fingerprint
behaves like null; fingerprints produced by the hash are never empty). -/
theorem spec_C5_type_matches_table (ch : Change) (h1 : ch.rev ≠ some "")
    (h2 : ch.prev ≠ some "") : ch.type = specClassifyType ch := by
  cases hr : ch.rev with
  | none =>
    cases hp : ch.prev with
    | none => simp [Change.type, specClassifyType, Change.truthy, hr, hp]
    | some p =>
      have hp' : ¬p = "" := fun he => h2 (by rw [hp, he])
      simp [Change.type, specClassifyType, Change.truthy, hr, hp,
        String.isEmpty_iff, hp']
  | some r =>
    have hr' : ¬r = "" := fun he => h1 (by rw [hr, he])
    cases hp : ch.prev with
    | none =>
      simp [Change.type, specClassifyType, Change.truthy, hr, hp,
        String.isEmpty_iff, hr']
    | some p =>
      have hp' : ¬p = "" := fun he => h2 (by rw [hp, he])
      simp [Change.type, specClassifyType, Change.truthy, hr, hp,
        String.isEmpty_iff, hr', hp']

theorem spec_C5_type_matches_table_witness :
    createdChange.rev ≠ some "" ∧ createdChange.prev ≠ some "" ∧
    Change.type createdChange = specClassifyType createdChange :=
  ⟨by decide, by decide,
   spec_C5_type_matches_table createdChange (by decide) (by decide)⟩

/-- C7 counterexample: `IdForModel` is not injective as claimed.  The pairs
`("a", "b-c")` and `("a-b", "c")` are distinct but join to the same string
`"a-b-c"`, so every hash function (the identity here; sha1 equally) maps
them to the same id. -/
theorem spec_C7_counterexample :
    ¬ (∀ (hash : String → String) (m₁ i₁ m₂ i₂ : String),
        Change.idForModel hash m₁ i₁ = Change.idForModel hash m₂ i₂ →
          m₁ = m₂ ∧ i₁ = i₂) := by
  intro H
  have h := (H (fun s => s) "a" "b-c" "a-b" "c" rfl).1
  exact absurd h (by decide)

/-- C7 amended: `IdForModel(modelName, modelId)` equals
`Hash(modelName ++ "-" ++ modelId)` and is deterministic; it is injective
provided the hash function is injective and the model names contain no
`'-'` character (the join is ambiguous when a model name contains the
separator, and a non-injective digest can collide). -/
theorem spec_C7_idForModel (hash : String → String) (m₁ i₁ m₂ i₂ : String)
    (hinj : Function.Injective hash)
    (hm₁ : '-' ∉ m₁.data) (hm₂ : '-' ∉ m₂.data) :
    Change.idForModel hash m₁ i₁ = hash (m₁ ++ "-" ++ i₁) ∧
    (m₁ = m₂ → i₁ = i₂ →
      Change.idForModel hash m₁ i₁ = Change.idForModel hash m₂ i₂) ∧
    (Change.idForModel hash m₁ i₁ = Change.idForModel hash m₂ i₂ →
      m₁ = m₂ ∧ i₁ = i₂) := by
  refine ⟨rfl, fun hm hi => by rw [hm, hi], fun h => ?_⟩
  have h' : m₁ ++ "-" ++ i₁ = m₂ ++ "-" ++ i₂ := hinj h
  have hdash : ("-" : String).data = ['-'] := rfl
  have hdata : m₁.data ++ '-' :: i₁.data = m₂.data ++ '-' :: i₂.data := by
    have hd := congrArg String.data h'
    simpa [String.data_append, hdash] using hd
  obtain ⟨h1, h2⟩ :=
    Change.append_dashFree_inj m₁.data m₂.data i₁.data i₂.data hm₁ hm₂ hdata
  exact ⟨String.ext h1, String.ext h2⟩

theorem spec_C7_idForModel_witness :
    Function.Injective (fun s : String => s) ∧
    ('-' ∉ ("a" : String).data) ∧ ('-' ∉ ("b" : String).data) ∧
    (Change.idForModel (fun s : String => s) "a" "x"
        = (fun s : String => s) ("a" ++ "-" ++ "x") ∧
     ("a" = "b" → "x" = "x" →
       Change.idForModel (fun s : String => s) "a" "x"
         = Change.idForModel (fun s : String => s) "b" "x") ∧
     (Change.idForModel (fun s : String => s) "a" "x"
         = Change.idForModel (fun s : String => s) "b" "x" →
       "a" = "b" ∧ "x" = "x")) :=
  ⟨fun _ _ h => h, by decide, by decide,
   spec_C7_idForModel (fun s => s) "a" "x" "b" "x" (fun _ _ h => h)
     (by decide) (by decide)⟩

/-- C1: in every invocation of Diff, each matched local record contributes
exactly per the spec's rule — nothing when the local and remote revs are
equal, the remote record to `deltas` when they differ and `remote.prev =
local.rev`, the local record to `conflicts` otherwise — and the two output
lists are exactly the records so contributed, in query order. -/
theorem spec_C1_diff_classification (mn : String) (since : Int)
    (rs store : List Change) :
    (Change.diff mn since rs store).1 =
      (Change.localQuery mn since (Change.indexRemotes rs).1 store).filterMap
        (Change.deltaDisposition (Change.lookupIdx (Change.indexRemotes rs).2)) ∧
    (Change.diff mn since rs store).2 =
      (Change.localQuery mn since (Change.indexRemotes rs).1 store).filter
        (Change.conflictDisposition (Change.lookupIdx (Change.indexRemotes rs).2)) := by
  simp only [Change.diff, Change.diffLoop_eq]
  exact ⟨trivial, trivial⟩

theorem checkpointGt_iff (cp : Option Int) (since : Int) :
    Change.checkpointGt cp since = true ↔ ∃ c, cp = some c ∧ since < c := by
  cases cp with
  | none => simp [Change.checkpointGt]
  | some c => simp [Change.checkpointGt]

/-- C2: the local query of Diff selects exactly the stored records whose
`modelName` matches, whose `modelId` is among the remote ids, and whose
`checkpoint` is strictly greater than `since`; a record whose checkpoint
equals `since` is excluded regardless of its revs. -/
theorem spec_C2_query_filter (mn : String) (since : Int)
    (rs store : List Change) (l : Change) :
    (l ∈ Change.localQuery mn since (Change.indexRemotes rs).1 store ↔
      l ∈ store ∧ l.modelName = mn ∧
        l.modelId ∈ rs.map (fun c => c.modelId) ∧
        ∃ c, l.checkpoint = some c ∧ since < c) ∧
    (l.checkpoint = some since →
      l ∉ Change.localQuery mn since (Change.indexRemotes rs).1 store) := by
  have hiff : l ∈ Change.localQuery mn since (Change.indexRemotes rs).1 store ↔
      l ∈ store ∧ l.modelName = mn ∧
        l.modelId ∈ rs.map (fun c => c.modelId) ∧
        ∃ c, l.checkpoint = some c ∧ since < c := by
    rw [Change.indexRemotes_fst]
    unfold Change.localQuery
    rw [List.mem_filter]
    simp only [Bool.and_eq_true, beq_iff_eq, List.contains, List.elem_eq_mem,
      decide_eq_true_eq, checkpointGt_iff, and_assoc]
  refine ⟨hiff, fun hcp hmem => ?_⟩
  obtain ⟨-, -, -, c, hc, hlt⟩ := hiff.mp hmem
  rw [hcp] at hc
  cases hc
  exact lt_irrefl since hlt

/-- C10: the remote index is built by object assignment, so looking up a
`modelId` yields the last remote record in list order with that id
(last-write-wins); the id list handed to the local query still contains
every occurrence's `modelId`, in order; and Diff's classification therefore
consults exactly that last-occurrence index. -/
theorem spec_C10_last_write_wins (rs : List Change) (mid : String) :
    Change.lookupIdx (Change.indexRemotes rs).2 mid
        = rs.reverse.find? (fun c => c.modelId == mid) ∧
    (Change.indexRemotes rs).1 = rs.map (fun c => c.modelId) ∧
    (∀ (mn : String) (since : Int) (store : List Change),
      Change.diff mn since rs store =
        Change.diffLoop
          (Change.localQuery mn since (rs.map (fun c => c.modelId)) store)
          (fun m => rs.reverse.find? (fun c => c.modelId == m))) := by
  refine ⟨Change.indexRemotes_lookup rs mid, Change.indexRemotes_fst rs,
    fun mn since store => ?_⟩
  simp only [Change.diff, Change.indexRemotes_fst]
  congr 1
  funext m
  exact Change.indexRemotes_lookup rs m

/-- An indexed remote counterpart carries the modelId it was looked up by:
the index stores each remote under its own `modelId`. -/
theorem lookupIdx_indexRemotes_modelId (rs : List Change) (mid : String)
    (r : Change) (h : Change.lookupIdx (Change.indexRemotes rs).2 mid = some r) :
    r.modelId = mid := by
  rw [Change.indexRemotes_lookup] at h
  have hp := List.find?_some h
  simpa using hp

/-- C9: within one Diff invocation, `deltas` and `conflicts` are never both
non-empty for the same entity `modelId`, provided the local store holds at
most one change record per `(modelName, modelId)` pair. -/
theorem spec_C9_one_disposition_per_id (mn : String) (since : Int)
    (rs store : List Change) (mid : String)
    (huniq : store.Pairwise
      (fun a b => ¬(a.modelName = b.modelName ∧ a.modelId = b.modelId))) :
    ¬((Change.diff mn since rs store).1.any (fun d => d.modelId == mid) = true ∧
      (Change.diff mn since rs store).2.any (fun c => c.modelId == mid) = true) := by
  rintro ⟨hd, hc⟩
  simp only [Change.diff, Change.diffLoop_eq] at hd hc
  simp only [List.any_eq_true, beq_iff_eq] at hd hc
  obtain ⟨d, hdmem, hdmid⟩ := hd
  obtain ⟨c, hcmem, hcmid⟩ := hc
  rw [List.mem_filterMap] at hdmem
  obtain ⟨l, hlmem, hdelta⟩ := hdmem
  rw [List.mem_filter] at hcmem
  obtain ⟨hcmem, hconf⟩ := hcmem
  unfold Change.deltaDisposition at hdelta
  unfold Change.conflictDisposition at hconf
  cases hidx : Change.lookupIdx (Change.indexRemotes rs).2 l.modelId with
  | none => rw [hidx] at hdelta; cases hdelta
  | some r =>
    rw [hidx] at hdelta
    dsimp only at hdelta
    by_cases h1 : r.rev = l.rev
    · rw [if_pos h1] at hdelta; cases hdelta
    · rw [if_neg h1] at hdelta
      by_cases h2 : r.prev = l.rev
      · rw [if_pos h2] at hdelta
        cases hdelta
        cases hidx2 : Change.lookupIdx (Change.indexRemotes rs).2 c.modelId with
        | none => rw [hidx2] at hconf; cases hconf
        | some r2 =>
          rw [hidx2] at hconf
          dsimp only at hconf
          rw [decide_eq_true_eq] at hconf
          obtain ⟨hne1, hne2⟩ := hconf
          have hlid : d.modelId = l.modelId :=
            lookupIdx_indexRemotes_modelId rs l.modelId d hidx
          have hlc : l.modelId = c.modelId := by
            rw [← hlid, hdmid, hcmid]
          have hlstore := (List.mem_filter.mp hlmem).1
          have hlname : l.modelName = mn := by
            have := (List.mem_filter.mp hlmem).2
            simp only [Bool.and_eq_true, beq_iff_eq] at this
            exact this.1.1
          have hcstore := (List.mem_filter.mp hcmem).1
          have hcname : c.modelName = mn := by
            have := (List.mem_filter.mp hcmem).2
            simp only [Bool.and_eq_true, beq_iff_eq] at this
            exact this.1.1
          have hsymm : Symmetric
              (fun a b : Change =>
                ¬(a.modelName = b.modelName ∧ a.modelId = b.modelId)) :=
            fun a b hab ⟨x, y⟩ => hab ⟨x.symm, y.symm⟩
          have hleqc : l = c := by
            by_contra hne
            exact huniq.forall hsymm hlstore hcstore hne
              ⟨hlname.trans hcname.symm, hlc⟩
          subst hleqc
          rw [hidx] at hidx2
          cases hidx2
          exact hne2 h2
      · rw [if_neg h2] at hdelta; cases hdelta

/-- C4: Track fails as a whole if any per-id sub-task (find-or-create then
rectify) fails: the call succeeds exactly when every sub-task succeeds, and
an error result is the error of some failing sub-task — an error result,
being the `error` branch of the outcome, carries no list of tracked
changes. -/
theorem spec_C4_track_all_or_nothing {ε : Type} (hash cjson : String → String)
    (findById : String → Except ε (Option Change))
    (save : Change → Except ε Change)
    (findEntity : String → String → Except ε (Option String))
    (mn : String) (ids : List String) :
    (Change.succeeded (Change.track hash cjson findById save findEntity mn ids)
        = true ↔
      ∀ i ∈ ids, Change.succeeded
        (Change.trackTask hash cjson findById save findEntity mn i) = true) ∧
    (∀ e, Change.track hash cjson findById save findEntity mn ids
        = Except.error e →
      ∃ i ∈ ids, Change.trackTask hash cjson findById save findEntity mn i
        = Except.error e) := by
  constructor
  · rw [Change.track, Change.parallelCollect_succeeded]
    simp [List.all_eq_true]
  · intro e he
    rw [Change.track] at he
    have hmem := Change.parallelCollect_error_mem _ e he
    rw [List.mem_map] at hmem
    obtain ⟨i, hid, heq⟩ := hmem
    exact ⟨i, hid, heq⟩

/-- C6: Rectify first shifts `prev` to the old `rev`; when the entity is
found it sets `rev` to `Hash(CanonicalSerialize(currentState))`
(`revisionForInst`), when the entity is not found it sets `rev` to null, and
that absence is a successful outcome of the revision lookup, not an error. -/
theorem spec_C6_rectify {ε : Type} (hash cjson : String → String)
    (findEntity : String → String → Except ε (Option String))
    (save : Change → Except ε Change) (ch : Change) :
    (∀ inst, findEntity ch.modelName ch.modelId = Except.ok (some inst) →
      Change.rectify hash cjson findEntity save ch
        = save { ch with prev := ch.rev, rev := some (Change.revisionForInst hash cjson inst) }) ∧
    (findEntity ch.modelName ch.modelId = Except.ok none →
      Change.rectify hash cjson findEntity save ch
        = save { ch with prev := ch.rev, rev := none }) ∧
    (findEntity ch.modelName ch.modelId = Except.ok none →
      Change.currentRevision hash cjson findEntity { ch with prev := ch.rev }
        = Except.ok none) := by
  refine ⟨fun inst hfound => ?_, fun hmiss => ?_, fun hmiss => ?_⟩
  · simp only [Change.rectify, Change.currentRevision]
    rw [hfound]
  · simp only [Change.rectify, Change.currentRevision]
    rw [hmiss]
  · simp only [Change.currentRevision]
    rw [hmiss]

/-- The local record of the spec's scenarios: rev "A", prev "X",
checkpoint 5. -/
def localAtSince : Change := { rev := some "A", prev := some "X", checkpoint := some 5, modelName := "m", modelId := "1" }

/-- A remote record whose history diverges from `localAtSince`. -/
def remoteDiverged : Change := { rev := some "B", prev := some "C", checkpoint := none, modelName := "m", modelId := "1" }

/-- A remote record based on `localAtSince` (prev equals its rev). -/
def remoteBasedOnA : Change := { rev := some "B", prev := some "A", checkpoint := none, modelName := "m", modelId := "1" }

/-- The identity digest, used to instantiate the injected hash and
serializer in witnesses. -/
def strId : String → String := fun s => s

/-- A keyed store whose `findById` always reports no existing record. -/
def storeFindNone : String → Except String (Option Change) := fun _ => Except.ok none

/-- A keyed store whose `save` always succeeds with the saved record. -/
def storeSaveOk : Change → Except String Change := fun c => Except.ok c

/-- An entity accessor that fails with "boom" on id2 and reports a missing
entity otherwise. -/
def entityFailOn2 : String → String → Except String (Option String) := fun _ i => if i = "id2" then Except.error "boom" else Except.ok none

/-- An entity accessor that always finds an entity serialized as "data". -/
def entityFound : String → String → Except String (Option String) := fun _ _ => Except.ok (some "data")

theorem spec_C2_query_filter_witness :
    localAtSince.checkpoint = some 5 ∧
    localAtSince ∉ Change.localQuery "m" 5
      (Change.indexRemotes [remoteDiverged]).1 [localAtSince] :=
  ⟨rfl,
   (spec_C2_query_filter "m" 5 [remoteDiverged] [localAtSince]
     localAtSince).2 rfl⟩

theorem spec_C4_track_all_or_nothing_witness :
    Change.track strId strId storeFindNone storeSaveOk entityFailOn2 "m"
        ["id1", "id2", "id3"] = Except.error "boom" ∧
    ∃ i ∈ ["id1", "id2", "id3"],
      Change.trackTask strId strId storeFindNone storeSaveOk entityFailOn2
        "m" i = Except.error "boom" :=
  ⟨rfl,
   (spec_C4_track_all_or_nothing strId strId storeFindNone storeSaveOk
     entityFailOn2 "m" ["id1", "id2", "id3"]).2 "boom" rfl⟩

theorem spec_C6_rectify_witness :
    entityFound localAtSince.modelName localAtSince.modelId
        = Except.ok (some "data") ∧
    Change.rectify strId strId entityFound storeSaveOk localAtSince
      = storeSaveOk { localAtSince with prev := localAtSince.rev, rev := some (Change.revisionForInst strId strId "data") } :=
  ⟨rfl,
   (spec_C6_rectify strId strId entityFound storeSaveOk localAtSince).1
     "data" rfl⟩

theorem spec_C9_one_disposition_per_id_witness :
    List.Pairwise
      (fun a b : Change => ¬(a.modelName = b.modelName ∧ a.modelId = b.modelId))
      [localAtSince] ∧
    ¬((Change.diff "m" 0 [remoteBasedOnA] [localAtSince]).1.any
        (fun d => d.modelId == "1") = true ∧
      (Change.diff "m" 0 [remoteBasedOnA] [localAtSince]).2.any
        (fun c => c.modelId == "1") = true) :=
  ⟨by decide,
   spec_C9_one_disposition_per_id "m" 0 [remoteBasedOnA] [localAtSince] "1"
     (by decide)⟩
